import Mathlib

/-!
Shallow embedding of the `file_sorter` module of the repository (Rust,
`src/file_sorter/mod.rs`).  The module sorts the regular files of a source
directory into a target directory tree: non-HTML files go to a subfolder
named after their lowercased extension, HTML files go to
`html/<category folder>` where the category is detected from the filename
stem and, failing that, from the file content.  A `SortingReport` records,
per composite key `"<extension> -> <folder>"`, the list of copied
filenames and a running total.

Modelling conventions:
* A directory entry (`fs::DirEntry`) is an `Entry`: a filename, an
  `isFile` flag (`path.is_file()`), the file content as
  `Option String` where `none` means `fs::read_to_string` fails
  (unreadable file or content that is not valid UTF-8), and two failure
  flags describing the nondeterministic environment: `entryFails` models
  the per-entry `Result` of directory iteration, `copyFails` models
  `fs::copy` failing on this file.
* `Env` carries the remaining I/O failure modes of a run:
  `create_dir_all` on the target root, `read_dir` on the source
  directory, and `create_dir_all` on each destination subfolder.
* The filesystem visible to a run is `FS`: the list of source entries and
  the list of copies made under the target directory, each copy a
  `CopyRec` holding destination subfolder, filename and content.
* Rust `&str`/`String` values are Lean `String`s; `to_lowercase` is
  modelled by `lowerStr` (ASCII case mapping, which coincides with
  Rust on the ASCII keywords and names the module compares against).
* `Path::file_stem` / `Path::extension` are modelled byte-for-byte after
  `std::path::rsplit_file_at_dot`: split the filename at the last `.`,
  with the special cases for `".."` and for a lone leading dot.
-/

/-- Decidable equality of `Except` values with decidable components. -/
instance exceptDecEq {ε α : Type} [DecidableEq ε] [DecidableEq α] :
    DecidableEq (Except ε α)
  | Except.ok a, Except.ok b =>
    if h : a = b then isTrue (by rw [h]) else isFalse (by intro hc; cases hc; exact h rfl)
  | Except.ok _, Except.error _ => isFalse (by intro hc; cases hc)
  | Except.error _, Except.ok _ => isFalse (by intro hc; cases hc)
  | Except.error e, Except.error e' =>
    if h : e = e' then isTrue (by rw [h]) else isFalse (by intro hc; cases hc; exact h rfl)

/-- Does `hay` have `needle` as a contiguous sublist?  Checks `needle` as
a prefix at every suffix of `hay`. -/
def listContains (hay needle : List Char) : Bool :=
  if needle.isPrefixOf hay then true
  else
    match hay with
    | [] => false
    | _ :: t => listContains t needle

/-- Substring test: does `hay` contain `needle`?  Models Rust
`str::contains` with a string pattern. -/
def strContains (hay needle : String) : Bool :=
  listContains hay.toList needle.toList

/-- ASCII lowercase of one character.  Models Rust `to_lowercase` on the
ASCII range, which covers every keyword and filename the module compares
against. -/
def lowerChar (c : Char) : Char :=
  if 65 ≤ c.toNat ∧ c.toNat ≤ 90 then Char.ofNat (c.toNat + 32) else c

/-- ASCII lowercase of a string (model of Rust `str::to_lowercase`). -/
def lowerStr (s : String) : String :=
  String.mk (s.toList.map lowerChar)

/-- Model of Rust `str::starts_with` with a string pattern. -/
def strStartsWith (s p : String) : Bool :=
  p.toList.isPrefixOf s.toList

/-- Splits a character list at its last `'.'`: returns the part before and
the part after that dot, or `none` when there is no dot.  Helper for the
model of `std::path::rsplit_file_at_dot`. -/
def splitLastDot : List Char → Option (List Char × List Char)
  | [] => none
  | c :: cs =>
    match splitLastDot cs with
    | some (b, a) => some (c :: b, a)
    | none => if c = '.' then some ([], cs) else none

/-- Model of `std::path::rsplit_file_at_dot`: `(before, after)` for a
filename, where `".."` and a filename whose only dot is the leading one
yield `(some whole, none)`. -/
def rsplitFileAtDot (file : List Char) : Option (List Char) × Option (List Char) :=
  if file = ['.', '.'] then (some file, none)
  else
    match splitLastDot file with
    | none => (none, some file)
    | some (before, after) =>
      if before = [] then (some file, none) else (some before, some after)

/-- Model of `Path::file_stem` on the final path component
(`before.or(after)` in the Rust source).  For entries coming from
`read_dir` the stem always exists, so the unreachable `(none, none)` case
returns `""`, matching the `unwrap_or("")` in `detect_html_category`. -/
def fileStem (name : String) : String :=
  match rsplitFileAtDot name.toList with
  | (some b, _) => String.mk b
  | (none, some a) => String.mk a
  | (none, none) => ""

/-- Model of `Path::extension` on the final path component
(`before.and(after)` in the Rust source). -/
def extensionOf (name : String) : Option String :=
  match rsplitFileAtDot name.toList with
  | (some _, some a) => some (String.mk a)
  | _ => none

/-- The five HTML categories of the Rust `enum HtmlCategory`. -/
inductive HtmlCategory where
  | Index
  | Template
  | Component
  | Page
  | Unknown
deriving DecidableEq

/-- Model of `HtmlCategory::folder_name`. -/
def HtmlCategory.folder_name : HtmlCategory → String
  | .Index => "index"
  | .Template => "templates"
  | .Component => "components"
  | .Page => "pages"
  | .Unknown => "other"

/-- The error kinds a sort run can surface, one per fallible I/O
operation in the Rust source (`create_dir_all` on the target root,
`read_dir`, the per-entry iteration `Result`, `create_dir_all` on a
destination subfolder, `fs::copy`). -/
inductive SortError where
  | mkdirRoot
  | readDir
  | entry (name : String)
  | mkdir (folder : String)
  | copy (name : String)
deriving DecidableEq

/-- A directory entry of the source directory, together with the failure
behaviour of the environment on this entry (see module header). -/
structure Entry where
  name : String
  isFile : Bool
  content : Option String
  entryFails : Bool
  copyFails : Bool
deriving DecidableEq

/-- A file copied under the target directory: destination subfolder
(relative to the target root, e.g. `"css"` or `"html/index"`), filename,
and content. -/
structure CopyRec where
  folder : String
  name : String
  content : Option String
deriving DecidableEq

/-- The filesystem as seen by a run: source-directory entries and the
copies already present under the target root. -/
structure FS where
  source : List Entry
  target : List CopyRec
deriving DecidableEq

/-- Environment failure modes not attached to a single entry. -/
structure Env where
  mkdirRootFails : Bool
  readDirFails : Bool
  mkdirFails : String → Bool

/-- Model of `struct SortingReport`: `files_moved` is the
`HashMap<String, Vec<String>>` as an association list (key order is
irrelevant to every claim), `total_files` the running count. -/
structure SortingReport where
  files_moved : List (String × List String)
  total_files : Nat
deriving DecidableEq

/-- Model of `SortingReport::new`. -/
def SortingReport.new : SortingReport :=
  { files_moved := [], total_files := 0 }

/-- Model of `self.files_moved.entry(key).or_default().push(filename)`:
append `v` to the list at `key`, creating the binding if absent. -/
def addToKey : List (String × List String) → String → String → List (String × List String)
  | [], key, v => [(key, [v])]
  | (k, vs) :: rest, key, v =>
    if k = key then (k, vs ++ [v]) :: rest else (k, vs) :: addToKey rest key v

/-- Model of `SortingReport::add_file_moved`. -/
def SortingReport.add_file_moved (r : SortingReport)
    (extension folder filename : String) : SortingReport :=
  let key := extension ++ " -> " ++ folder
  { files_moved := addToKey r.files_moved key filename
    total_files := r.total_files + 1 }

/-- The list bound to key `k` in an association list, `[]` if absent. -/
def getList : List (String × List String) → String → List String
  | [], _ => []
  | (k', vs) :: rest, k => if k' = k then vs else getList rest k

/-- Sum of the lengths of all per-key lists of a report map. -/
def sumLens (m : List (String × List String)) : Nat :=
  (m.map fun p => p.2.length).sum

/-- Model of `FileSorter::detect_html_category_by_content`: lowercase the
content (empty on read failure, from `unwrap_or_default`) and test the
keyword substrings in order. -/
def detect_html_category_by_content (f : Entry) : Except SortError HtmlCategory :=
  let content := lowerStr (f.content.getD "")
  if strContains content "template" || strContains content "layout" then
    Except.ok HtmlCategory.Template
  else if strContains content "component" || strContains content "widget" then
    Except.ok HtmlCategory.Component
  else if strContains content "<html" && strContains content "<head" then
    Except.ok HtmlCategory.Page
  else
    Except.ok HtmlCategory.Unknown

/-- Model of `FileSorter::detect_html_category`: match on the lowercased
filename stem first, fall back to content inspection.  The Rust `match`
with guards is a first-match-wins cascade. -/
def detect_html_category (f : Entry) : Except SortError HtmlCategory :=
  let file_name := lowerStr (fileStem f.name)
  if file_name = "index" || file_name = "home" || file_name = "main" then
    Except.ok HtmlCategory.Index
  else if strContains file_name "template" || strContains file_name "layout" then
    Except.ok HtmlCategory.Template
  else if strContains file_name "component" || strStartsWith file_name "comp_" then
    Except.ok HtmlCategory.Component
  else
    detect_html_category_by_content f

/-- Model of `FileSorter::sort_single_file`: derive the lowercased
extension (sentinel `"no_extension"`), resolve the destination subfolder
(HTML categorization for `html`/`htm`), create the destination directory,
copy, and record the move in the report. -/
def sort_single_file (env : Env) (f : Entry) (fs : FS) (report : SortingReport) :
    Except SortError (FS × SortingReport) :=
  let file_name := f.name
  let extension := lowerStr ((extensionOf f.name).getD "no_extension")
  match (if extension = "html" || extension = "htm" then
           (detect_html_category f).map fun c => "html/" ++ c.folder_name
         else Except.ok extension) with
  | Except.error e => Except.error e
  | Except.ok target_folder =>
    if env.mkdirFails target_folder then Except.error (SortError.mkdir target_folder)
    else if f.copyFails then Except.error (SortError.copy file_name)
    else Except.ok
      ({ fs with target := fs.target ++ [⟨target_folder, file_name, f.content⟩] },
       report.add_file_moved extension target_folder file_name)

/-- The entry-processing loop of `FileSorter::sort_files`: each iteration
first forces the per-entry `Result` (`let entry = entry?`), then sorts the
entry when `path.is_file()` holds, short-circuiting on the first error. -/
def sort_loop (env : Env) : List Entry → FS → SortingReport →
    Except SortError (FS × SortingReport)
  | [], fs, report => Except.ok (fs, report)
  | e :: rest, fs, report =>
    if e.entryFails then Except.error (SortError.entry e.name)
    else if e.isFile then
      match sort_single_file env e fs report with
      | Except.error err => Except.error err
      | Except.ok (fs', report') => sort_loop env rest fs' report'
    else sort_loop env rest fs report

/-- Model of `FileSorter::sort_files`: create the target root, read the
source directory, then process each entry with a fresh empty report. -/
def sort_files (env : Env) (fs : FS) : Except SortError (FS × SortingReport) :=
  if env.mkdirRootFails then Except.error SortError.mkdirRoot
  else if env.readDirFails then Except.error SortError.readDir
  else sort_loop env fs.source fs SortingReport.new

/-- An environment in which every I/O operation succeeds. -/
def Env.ok : Env :=
  { mkdirRootFails := false, readDirFails := false, mkdirFails := fun _ => false }

/-- The lowercased extension string `sort_single_file` computes for an
entry, with the `"no_extension"` sentinel for extension-less names. -/
def entryExtension (f : Entry) : String :=
  lowerStr ((extensionOf f.name).getD "no_extension")

/-- Modelled from the claim text (spec section 4.2, decision order,
first match wins), applied to the already-lowercased filename stem and
file content: stem equal to `index`/`home`/`main` gives `Index`; else
stem containing `template`/`layout` gives `Template`; else stem
containing `component` or starting with `comp_` gives `Component`; else
content containing `template`/`layout` gives `Template`, else content
containing `component`/`widget` gives `Component`, else content
containing both `<html` and `<head` gives `Page`, else `Unknown`. -/
def claimHtmlCategory (stem content : String) : HtmlCategory :=
  if stem = "index" || stem = "home" || stem = "main" then
    HtmlCategory.Index
  else if strContains stem "template" || strContains stem "layout" then
    HtmlCategory.Template
  else if strContains stem "component" || strStartsWith stem "comp_" then
    HtmlCategory.Component
  else if strContains content "template" || strContains content "layout" then
    HtmlCategory.Template
  else if strContains content "component" || strContains content "widget" then
    HtmlCategory.Component
  else if strContains content "<html" && strContains content "<head" then
    HtmlCategory.Page
  else
    HtmlCategory.Unknown

/-- The category `detect_html_category` computes, as a pure value (the
error side is unreachable, see `detect_never_errors`). -/
def detectCategory (f : Entry) : HtmlCategory :=
  match detect_html_category f with
  | Except.ok c => c
  | Except.error _ => HtmlCategory.Unknown

/-- The destination subfolder `sort_single_file` computes for an entry:
`html/<category folder>` for HTML/HTM files, the lowercased extension
otherwise. -/
def targetFolderOf (f : Entry) : String :=
  if entryExtension f = "html" || entryExtension f = "htm" then
    "html/" ++ (detectCategory f).folder_name
  else entryExtension f

/-- The report invariant of spec section 3: the total count equals the
sum of the lengths of all per-key lists. -/
def reportConsistent (r : SortingReport) : Prop :=
  r.total_files = sumLens r.files_moved

example : fileStem "index.html" = "index" := by decide
example : extensionOf "index.html" = some "html" := by decide
example : extensionOf "README" = none := by decide
example : fileStem ".gitignore" = ".gitignore" := by decide
example : extensionOf ".gitignore" = none := by decide
example : extensionOf "archive.tar.gz" = some "gz" := by decide
example : fileStem "archive.tar.gz" = "archive.tar" := by decide
example : detect_html_category ⟨"index.html", true, some "x", false, false⟩
    = Except.ok HtmlCategory.Index := by decide
example : detect_html_category ⟨"foo.html", true, some "<html><head>", false, false⟩
    = Except.ok HtmlCategory.Page := by decide
example : detect_html_category ⟨"comp_button.html", true, some "", false, false⟩
    = Except.ok HtmlCategory.Component := by decide
example : detect_html_category ⟨"foo.html", true, none, false, false⟩
    = Except.ok HtmlCategory.Unknown := by decide

/-- Helper: the content-based categorizer always returns `Except.ok`. -/
theorem detect_by_content_isOk (f : Entry) :
    ∃ c, detect_html_category_by_content f = Except.ok c := by
  unfold detect_html_category_by_content
  dsimp only
  split_ifs <;> exact ⟨_, rfl⟩

/-- Helper: the categorizer always returns `Except.ok`. -/
theorem detect_isOk (f : Entry) :
    ∃ c, detect_html_category f = Except.ok c := by
  unfold detect_html_category
  dsimp only
  split_ifs <;> first
    | exact ⟨_, rfl⟩
    | exact detect_by_content_isOk f

/-- Helper: closed-form behaviour of `sort_single_file` — categorization
never fails, so the outcome is decided by the destination-directory
creation and the copy alone. -/
theorem sort_single_file_eq (env : Env) (f : Entry) (fs : FS) (r : SortingReport) :
    sort_single_file env f fs r =
      (if env.mkdirFails (targetFolderOf f) then
        Except.error (SortError.mkdir (targetFolderOf f))
      else if f.copyFails then Except.error (SortError.copy f.name)
      else Except.ok
        ({ fs with target := fs.target ++ [⟨targetFolderOf f, f.name, f.content⟩] },
         r.add_file_moved (entryExtension f) (targetFolderOf f) f.name)) := by
  obtain ⟨c, hc⟩ := detect_isOk f
  unfold sort_single_file targetFolderOf detectCategory entryExtension
  rw [hc]
  dsimp only [Except.map]
  split_ifs <;> dsimp only <;> simp_all

/-- C10: both categorizer functions always return `Ok`, and therefore a
`sort_single_file` error can only come from directory creation or from
the copy itself — never from categorization. -/
theorem detect_never_errors (f : Entry) :
    (∃ c, detect_html_category f = Except.ok c) ∧
    (∃ c, detect_html_category_by_content f = Except.ok c) ∧
    (∀ env fs r err, sort_single_file env f fs r = Except.error err →
      (∃ folder, err = SortError.mkdir folder) ∨ err = SortError.copy f.name) := by
  refine ⟨detect_isOk f, detect_by_content_isOk f, ?_⟩
  intro env fs r err h
  rw [sort_single_file_eq] at h
  split_ifs at h
  · exact Or.inl ⟨targetFolderOf f, ((Except.error.injEq _ _).mp h).symm⟩
  · exact Or.inr ((Except.error.injEq _ _).mp h).symm

/-- C1: on any HTML/HTM file the categorizer returns exactly the single
category prescribed by the claim's first-match-wins order, computed from
the lowercased filename stem and the lowercased content (empty when
unreadable). -/
theorem detect_follows_claim_order (f : Entry)
    (hext : entryExtension f = "html" ∨ entryExtension f = "htm") :
    detect_html_category f =
      Except.ok (claimHtmlCategory (lowerStr (fileStem f.name))
        (lowerStr (f.content.getD ""))) := by
  unfold detect_html_category detect_html_category_by_content claimHtmlCategory
  dsimp only
  split_ifs <;> rfl

/-- Witness for C1 at a concrete HTML file. -/
theorem detect_follows_claim_order_witness :
    (entryExtension ⟨"page.html", true, some "hello", false, false⟩ = "html" ∨
      entryExtension ⟨"page.html", true, some "hello", false, false⟩ = "htm") ∧
    detect_html_category ⟨"page.html", true, some "hello", false, false⟩ =
      Except.ok (claimHtmlCategory
        (lowerStr (fileStem (Entry.name ⟨"page.html", true, some "hello", false, false⟩)))
        (lowerStr ((Entry.content ⟨"page.html", true, some "hello", false, false⟩).getD ""))) :=
  ⟨Or.inl (by decide),
   detect_follows_claim_order ⟨"page.html", true, some "hello", false, false⟩
     (Or.inl (by decide))⟩

/-- C5: a file named `index.html` is categorized `Index` whatever its
content; the filename rule fires before any content inspection. -/
theorem index_html_always_index (f : Entry) (h : f.name = "index.html") :
    detect_html_category f = Except.ok HtmlCategory.Index := by
  have hs : lowerStr (fileStem f.name) = "index" := by rw [h]; decide
  unfold detect_html_category
  dsimp only
  rw [hs]
  rfl

/-- Witness for C5: `index.html` with content full of competing keywords
is still `Index`. -/
theorem index_html_always_index_witness :
    detect_html_category
      ⟨"index.html", true, some "template layout component widget", false, false⟩ =
      Except.ok HtmlCategory.Index :=
  index_html_always_index _ rfl

/-- C8: the categorizer result is a function of the (filename, content)
pair alone — two entries agreeing on both fields categorize alike. -/
theorem detect_deterministic (f g : Entry) (hn : f.name = g.name)
    (hc : f.content = g.content) :
    detect_html_category f = detect_html_category g := by
  unfold detect_html_category detect_html_category_by_content
  dsimp only
  rw [hn, hc]

/-- Witness for C8: two entries equal on name and content but differing
everywhere else categorize alike. -/
theorem detect_deterministic_witness :
    detect_html_category ⟨"a.html", true, some "x", false, false⟩ =
      detect_html_category ⟨"a.html", false, some "x", true, true⟩ :=
  detect_deterministic ⟨"a.html", true, some "x", false, false⟩
    ⟨"a.html", false, some "x", true, true⟩ rfl rfl

/-- Helper: adding one file adds exactly one to the summed list
lengths. -/
theorem sumLens_addToKey (m : List (String × List String)) (k v : String) :
    sumLens (addToKey m k v) = sumLens m + 1 := by
  induction m with
  | nil => simp [addToKey, sumLens]
  | cons p rest ih =>
    obtain ⟨k', vs⟩ := p
    by_cases h : k' = k
    · simp [addToKey, h, sumLens]
      omega
    · simp [addToKey, h, sumLens] at ih ⊢
      omega

/-- Helper: `add_file_moved` preserves the count/size invariant. -/
theorem add_file_moved_consistent (r : SortingReport) (e fo fn : String)
    (h : reportConsistent r) :
    reportConsistent (r.add_file_moved e fo fn) := by
  unfold reportConsistent SortingReport.add_file_moved at *
  simp [sumLens_addToKey, h]

/-- Helper: how `addToKey` changes the list bound to each key. -/
theorem getList_addToKey (m : List (String × List String)) (k v q : String) :
    getList (addToKey m k v) q =
      if q = k then getList m q ++ [v] else getList m q := by
  induction m with
  | nil =>
    simp only [addToKey, getList]
    by_cases h : k = q
    · subst h
      simp
    · have h' : ¬q = k := fun hh => h hh.symm
      rw [if_neg h, if_neg h']
  | cons p rest ih =>
    obtain ⟨k', vs⟩ := p
    by_cases h1 : k' = k
    · subst h1
      simp only [addToKey, if_pos rfl, getList]
      by_cases h2 : k' = q
      · subst h2
        simp
      · have h2' : ¬q = k' := fun hh => h2 hh.symm
        rw [if_neg h2, if_neg h2, if_neg h2']
    · simp only [addToKey, if_neg h1, getList]
      by_cases h2 : k' = q
      · subst h2
        have h1' : ¬k' = k := h1
        rw [if_pos rfl, if_pos rfl, if_neg h1']
      · rw [if_neg h2, if_neg h2, ih]

/-- Helper: recording one move increments the total by one. -/
theorem add_file_moved_total (r : SortingReport) (e fo fn : String) :
    (r.add_file_moved e fo fn).total_files = r.total_files + 1 := rfl

/-- Helper: recording one move keeps every name present under every
key. -/
theorem getList_add_mem (r : SortingReport) (e fo fn q n : String)
    (h : n ∈ getList r.files_moved q) :
    n ∈ getList (r.add_file_moved e fo fn).files_moved q := by
  unfold SortingReport.add_file_moved
  dsimp only
  rw [getList_addToKey]
  split_ifs with hq
  · exact List.mem_append_left _ h
  · exact h

/-- Helper: a successful loop changes no source entry and only appends to
the target tree, and every recorded name stays recorded. -/
theorem sort_loop_mono (env : Env) :
    ∀ (es : List Entry) (fs : FS) (r : SortingReport) (fs' : FS) (r' : SortingReport),
      sort_loop env es fs r = Except.ok (fs', r') →
      fs'.source = fs.source ∧
      (∃ added, fs'.target = fs.target ++ added) ∧
      (∀ q n, n ∈ getList r.files_moved q → n ∈ getList r'.files_moved q) := by
  intro es
  induction es with
  | nil =>
    intro fs r fs' r' h
    simp only [sort_loop] at h
    injection h with h12
    injection h12 with hA hB
    subst hA
    subst hB
    exact ⟨rfl, ⟨[], by simp⟩, fun q n hn => hn⟩
  | cons x rest ih =>
    intro fs r fs' r' h
    simp only [sort_loop] at h
    by_cases h1 : x.entryFails = true
    · rw [if_pos h1] at h
      cases h
    · rw [if_neg h1] at h
      by_cases h2 : x.isFile = true
      · rw [if_pos h2] at h
        cases hss : sort_single_file env x fs r with
        | error err =>
          rw [hss] at h
          cases h
        | ok p =>
          obtain ⟨fs1, r1⟩ := p
          rw [hss] at h
          rw [sort_single_file_eq] at hss
          split_ifs at hss
          injection hss with h12
          injection h12 with hA hB
          subst hA
          subst hB
          obtain ⟨m1, ⟨added, m2⟩, m3⟩ := ih _ _ _ _ h
          refine ⟨m1, ⟨⟨targetFolderOf x, x.name, x.content⟩ :: added, ?_⟩, ?_⟩
          · rw [m2]
            simp
          · intro q n hn
            exact m3 q n (getList_add_mem _ _ _ _ _ _ hn)
      · rw [if_neg h2] at h
        exact ih _ _ _ _ h

/-- Helper: a successful loop adds one report entry per regular file, and
preserves the count/size invariant. -/
theorem sort_loop_count (env : Env) :
    ∀ (es : List Entry) (fs : FS) (r : SortingReport) (fs' : FS) (r' : SortingReport),
      sort_loop env es fs r = Except.ok (fs', r') →
      r'.total_files = r.total_files + (es.filter (fun e => e.isFile)).length ∧
      (reportConsistent r → reportConsistent r') := by
  intro es
  induction es with
  | nil =>
    intro fs r fs' r' h
    simp only [sort_loop] at h
    injection h with h12
    injection h12 with hA hB
    subst hA
    subst hB
    exact ⟨by simp, fun hc => hc⟩
  | cons x rest ih =>
    intro fs r fs' r' h
    simp only [sort_loop] at h
    by_cases h1 : x.entryFails = true
    · rw [if_pos h1] at h
      cases h
    · rw [if_neg h1] at h
      by_cases h2 : x.isFile = true
      · rw [if_pos h2] at h
        cases hss : sort_single_file env x fs r with
        | error err =>
          rw [hss] at h
          cases h
        | ok p =>
          obtain ⟨fs1, r1⟩ := p
          rw [hss] at h
          rw [sort_single_file_eq] at hss
          split_ifs at hss
          injection hss with h12
          injection h12 with hA hB
          subst hA
          subst hB
          obtain ⟨hc1, hc2⟩ := ih _ _ _ _ h
          constructor
          · rw [hc1, add_file_moved_total]
            simp only [List.filter_cons, h2, if_pos]
            simp
            omega
          · intro hcons
            exact hc2 (add_file_moved_consistent _ _ _ _ hcons)
      · rw [if_neg h2] at h
        obtain ⟨hc1, hc2⟩ := ih _ _ _ _ h
        constructor
        · rw [hc1]
          simp only [List.filter_cons, h2]
          simp
        · exact hc2

/-- Helper: splitting a loop run at a list split point. -/
theorem sort_loop_append (env : Env) (xs ys : List Entry) (fs : FS) (r : SortingReport) :
    sort_loop env (xs ++ ys) fs r =
      match sort_loop env xs fs r with
      | Except.ok (fs', r') => sort_loop env ys fs' r'
      | Except.error e => Except.error e := by
  induction xs generalizing fs r with
  | nil => simp [sort_loop]
  | cons x rest ih =>
    by_cases h1 : x.entryFails = true
    · simp [sort_loop, h1]
    · by_cases h2 : x.isFile = true
      · simp only [List.cons_append, sort_loop, if_neg h1, if_pos h2]
        cases hss : sort_single_file env x fs r with
        | error err => rfl
        | ok p =>
          obtain ⟨fs1, r1⟩ := p
          exact ih fs1 r1
      · simp only [List.cons_append, sort_loop, if_neg h1, if_neg h2]
        exact ih fs r

/-- Helper: every regular file of a successfully processed entry list
ends up copied under its target folder, and its name is recorded in the
report under the key built from its extension and that folder. -/
theorem sort_loop_copies (env : Env) (e : Entry) (hf : e.isFile = true) :
    ∀ (es : List Entry) (fs : FS) (r : SortingReport) (fs' : FS) (r' : SortingReport),
      e ∈ es → sort_loop env es fs r = Except.ok (fs', r') →
      (⟨targetFolderOf e, e.name, e.content⟩ : CopyRec) ∈ fs'.target ∧
      e.name ∈ getList r'.files_moved (entryExtension e ++ " -> " ++ targetFolderOf e) := by
  intro es
  induction es with
  | nil =>
    intro fs r fs' r' he _
    cases he
  | cons x rest ih =>
    intro fs r fs' r' he h
    simp only [sort_loop] at h
    by_cases h1 : x.entryFails = true
    · rw [if_pos h1] at h
      cases h
    · rw [if_neg h1] at h
      rcases List.mem_cons.mp he with rfl | hrest
      · rw [if_pos hf] at h
        cases hss : sort_single_file env e fs r with
        | error err =>
          rw [hss] at h
          cases h
        | ok p =>
          obtain ⟨fs1, r1⟩ := p
          rw [hss] at h
          rw [sort_single_file_eq] at hss
          split_ifs at hss
          injection hss with h12
          injection h12 with hA hB
          subst hA
          subst hB
          obtain ⟨m1, ⟨added, m2⟩, m3⟩ := sort_loop_mono env rest _ _ _ _ h
          constructor
          · rw [m2]
            simp
          · refine m3 _ _ ?_
            unfold SortingReport.add_file_moved
            dsimp only
            rw [getList_addToKey]
            simp
      · by_cases h2 : x.isFile = true
        · rw [if_pos h2] at h
          cases hss : sort_single_file env x fs r with
          | error err =>
            rw [hss] at h
            cases h
          | ok p =>
            obtain ⟨fs1, r1⟩ := p
            rw [hss] at h
            exact ih fs1 r1 fs' r' hrest h
        · rw [if_neg h2] at h
          exact ih fs r fs' r' hrest h

/-- Helper: any fold of record operations from a consistent report stays
consistent. -/
theorem foldl_add_consistent (ops : List (String × String × String))
    (r : SortingReport) (h : reportConsistent r) :
    reportConsistent
      (ops.foldl (fun acc p => acc.add_file_moved p.1 p.2.1 p.2.2) r) := by
  induction ops generalizing r with
  | nil => exact h
  | cons p rest ih => exact ih _ (add_file_moved_consistent _ _ _ _ h)

/-- C2: in a successful sort, every regular source file whose lowercased
extension `E` is neither `html` nor `htm` is copied to `<target>/E/` under
its original name, and the report's key `E -> E` lists that name. -/
theorem nonhtml_file_sorted (env : Env) (fs : FS) (fs' : FS) (rpt : SortingReport)
    (e : Entry) (h : sort_files env fs = Except.ok (fs', rpt)) (he : e ∈ fs.source)
    (hf : e.isFile = true)
    (hh1 : entryExtension e ≠ "html") (hh2 : entryExtension e ≠ "htm") :
    (⟨entryExtension e, e.name, e.content⟩ : CopyRec) ∈ fs'.target ∧
    e.name ∈ getList rpt.files_moved (entryExtension e ++ " -> " ++ entryExtension e) := by
  have hcond : ¬((entryExtension e = "html" || entryExtension e = "htm") = true) := by
    simp [hh1, hh2]
  have htf : targetFolderOf e = entryExtension e := by
    unfold targetFolderOf
    rw [if_neg hcond]
  unfold sort_files at h
  split_ifs at h
  have hc := sort_loop_copies env e hf fs.source fs SortingReport.new fs' rpt he h
  rw [htf] at hc
  exact hc

/-- Witness for C2: a `css` file lands in `<target>/css/` and in the
report under `css -> css`. -/
theorem nonhtml_file_sorted_witness :
    (⟨entryExtension ⟨"style.css", true, some "body", false, false⟩, "style.css",
        some "body"⟩ : CopyRec) ∈
      (FS.mk [⟨"style.css", true, some "body", false, false⟩]
        [⟨"css", "style.css", some "body"⟩]).target ∧
    "style.css" ∈ getList (SortingReport.mk [("css -> css", ["style.css"])] 1).files_moved
      (entryExtension ⟨"style.css", true, some "body", false, false⟩ ++ " -> " ++
        entryExtension ⟨"style.css", true, some "body", false, false⟩) :=
  nonhtml_file_sorted Env.ok ⟨[⟨"style.css", true, some "body", false, false⟩], []⟩
    ⟨[⟨"style.css", true, some "body", false, false⟩], [⟨"css", "style.css", some "body"⟩]⟩
    ⟨[("css -> css", ["style.css"])], 1⟩ ⟨"style.css", true, some "body", false, false⟩
    (by decide) (by decide) rfl (by decide) (by decide)

/-- C3: any sequence of record operations starting from the empty report
keeps `total_files` equal to the sum of all per-key list lengths, and a
successful run over the source directory reports exactly its number of
regular files. -/
theorem report_total_invariant (env : Env) (fs : FS) (fs' : FS) (rpt : SortingReport)
    (h : sort_files env fs = Except.ok (fs', rpt)) :
    (∀ ops : List (String × String × String),
      reportConsistent
        (ops.foldl (fun acc p => acc.add_file_moved p.1 p.2.1 p.2.2) SortingReport.new)) ∧
    reportConsistent rpt ∧
    rpt.total_files = (fs.source.filter (fun e => e.isFile)).length := by
  refine ⟨fun ops => foldl_add_consistent ops SortingReport.new rfl, ?_⟩
  unfold sort_files at h
  split_ifs at h
  obtain ⟨hc1, hc2⟩ := sort_loop_count env fs.source fs SortingReport.new fs' rpt h
  refine ⟨hc2 rfl, ?_⟩
  rw [hc1]
  simp [SortingReport.new]

/-- Witness for C3 on a concrete two-file run. -/
theorem report_total_invariant_witness :
    (∀ ops : List (String × String × String),
      reportConsistent
        (ops.foldl (fun acc p => acc.add_file_moved p.1 p.2.1 p.2.2) SortingReport.new)) ∧
    reportConsistent (SortingReport.mk [("txt -> txt", ["a.txt"]), ("css -> css", ["b.css"])] 2) ∧
    (SortingReport.mk [("txt -> txt", ["a.txt"]), ("css -> css", ["b.css"])] 2).total_files =
      ((FS.mk [⟨"a.txt", true, some "x", false, false⟩,
          ⟨"b.css", true, some "y", false, false⟩] []).source.filter
        (fun e => e.isFile)).length :=
  report_total_invariant Env.ok
    ⟨[⟨"a.txt", true, some "x", false, false⟩, ⟨"b.css", true, some "y", false, false⟩], []⟩
    ⟨[⟨"a.txt", true, some "x", false, false⟩, ⟨"b.css", true, some "y", false, false⟩],
      [⟨"txt", "a.txt", some "x"⟩, ⟨"css", "b.css", some "y"⟩]⟩
    ⟨[("txt -> txt", ["a.txt"]), ("css -> css", ["b.css"])], 2⟩
    (by decide)

/-- C4: once an entry fails (here: directory creation or copy), the run
aborts at that entry — whatever entries remain — and the top-level sort
returns that error, so the caller gets an error and no report. -/
theorem io_failure_aborts (env : Env) (fs : FS) (pre post : List Entry) (e : Entry)
    (fs1 : FS) (r1 : SortingReport) (err : SortError)
    (hroot : env.mkdirRootFails = false) (hrd : env.readDirFails = false)
    (hsrc : fs.source = pre ++ e :: post)
    (hpre : sort_loop env pre fs SortingReport.new = Except.ok (fs1, r1))
    (hef : e.entryFails = false) (hif : e.isFile = true)
    (hfail : sort_single_file env e fs1 r1 = Except.error err) :
    sort_files env fs = Except.error err := by
  unfold sort_files
  rw [hroot, hrd]
  simp only [Bool.false_eq_true, if_false]
  rw [hsrc, sort_loop_append, hpre]
  dsimp only
  simp only [sort_loop, hef, hif, hfail, Bool.false_eq_true, if_false, if_true]

/-- Witness for C4: with one good file before and one after, a failing
copy in the middle aborts the whole run with that error. -/
theorem io_failure_aborts_witness :
    sort_files Env.ok
      ⟨[⟨"b.txt", true, some "y", false, false⟩, ⟨"a.txt", true, some "x", false, true⟩,
        ⟨"c.txt", true, some "z", false, false⟩], []⟩ =
      Except.error (SortError.copy "a.txt") :=
  io_failure_aborts Env.ok
    ⟨[⟨"b.txt", true, some "y", false, false⟩, ⟨"a.txt", true, some "x", false, true⟩,
      ⟨"c.txt", true, some "z", false, false⟩], []⟩
    [⟨"b.txt", true, some "y", false, false⟩] [⟨"c.txt", true, some "z", false, false⟩]
    ⟨"a.txt", true, some "x", false, true⟩
    ⟨[⟨"b.txt", true, some "y", false, false⟩, ⟨"a.txt", true, some "x", false, true⟩,
      ⟨"c.txt", true, some "z", false, false⟩], [⟨"txt", "b.txt", some "y"⟩]⟩
    ⟨[("txt -> txt", ["b.txt"])], 1⟩ (SortError.copy "a.txt")
    rfl rfl rfl (by decide) rfl rfl (by decide)

/-- C7: a successful run copies rather than moves — the source directory
is untouched (same entries, same contents) and the target tree only ever
grows. -/
theorem sort_preserves_source (env : Env) (fs : FS) (fs' : FS) (rpt : SortingReport)
    (h : sort_files env fs = Except.ok (fs', rpt)) :
    fs'.source = fs.source ∧ fs.target <+: fs'.target := by
  unfold sort_files at h
  split_ifs at h
  obtain ⟨m1, ⟨added, m2⟩, _⟩ := sort_loop_mono env fs.source fs SortingReport.new fs' rpt h
  exact ⟨m1, ⟨added, m2.symm⟩⟩

/-- Witness for C7 on a concrete run. -/
theorem sort_preserves_source_witness :
    (FS.mk [⟨"a.txt", true, some "hi", false, false⟩] [⟨"txt", "a.txt", some "hi"⟩]).source =
      (FS.mk [⟨"a.txt", true, some "hi", false, false⟩] []).source ∧
    (FS.mk [⟨"a.txt", true, some "hi", false, false⟩] []).target <+:
      (FS.mk [⟨"a.txt", true, some "hi", false, false⟩] [⟨"txt", "a.txt", some "hi"⟩]).target :=
  sort_preserves_source Env.ok ⟨[⟨"a.txt", true, some "hi", false, false⟩], []⟩
    ⟨[⟨"a.txt", true, some "hi", false, false⟩], [⟨"txt", "a.txt", some "hi"⟩]⟩
    ⟨[("txt -> txt", ["a.txt"])], 1⟩ (by decide)

/-- C9: a file without extension uses the sentinel `no_extension`: it is
copied under `<target>/no_extension/` and recorded under the key
`no_extension -> no_extension`. -/
theorem no_extension_sentinel (env : Env) (f : Entry) (fs : FS) (r : SortingReport)
    (hext : extensionOf f.name = none)
    (hmk : env.mkdirFails "no_extension" = false) (hcp : f.copyFails = false) :
    sort_single_file env f fs r = Except.ok
      ({ fs with target := fs.target ++ [⟨"no_extension", f.name, f.content⟩] },
       r.add_file_moved "no_extension" "no_extension" f.name) := by
  have hE : entryExtension f = "no_extension" := by
    unfold entryExtension
    rw [hext]
    rfl
  have hTF : targetFolderOf f = "no_extension" := by
    unfold targetFolderOf
    rw [hE]
    rfl
  rw [sort_single_file_eq, hTF, hE, hmk, hcp]
  simp only [Bool.false_eq_true, if_false]

/-- Witness for C9: a `README` file goes to `no_extension`. -/
theorem no_extension_sentinel_witness :
    sort_single_file Env.ok ⟨"README", true, some "docs", false, false⟩ ⟨[], []⟩
      SortingReport.new = Except.ok
      ({ FS.mk [] [] with target :=
          (FS.mk [] []).target ++ [⟨"no_extension", "README", some "docs"⟩] },
       SortingReport.new.add_file_moved "no_extension" "no_extension" "README") :=
  no_extension_sentinel Env.ok ⟨"README", true, some "docs", false, false⟩ ⟨[], []⟩
    SortingReport.new (by decide) rfl rfl

/-- C6: an HTML file matching no filename rule whose content cannot be
read (content `none`, degraded to the empty string) categorizes as
`Unknown`, and — given that the destination directory and copy succeed —
the sort of that file still succeeds. -/
theorem unreadable_content_defaults_unknown (f : Entry)
    (h1 : lowerStr (fileStem f.name) ≠ "index")
    (h2 : lowerStr (fileStem f.name) ≠ "home")
    (h3 : lowerStr (fileStem f.name) ≠ "main")
    (h4 : strContains (lowerStr (fileStem f.name)) "template" = false)
    (h5 : strContains (lowerStr (fileStem f.name)) "layout" = false)
    (h6 : strContains (lowerStr (fileStem f.name)) "component" = false)
    (h7 : strStartsWith (lowerStr (fileStem f.name)) "comp_" = false)
    (hcontent : f.content = none) :
    detect_html_category f = Except.ok HtmlCategory.Unknown ∧
    (∀ (env : Env) (fs : FS) (r : SortingReport),
      env.mkdirFails "html/other" = false → f.copyFails = false →
      (entryExtension f = "html" ∨ entryExtension f = "htm") →
      sort_single_file env f fs r = Except.ok
        ({ fs with target := fs.target ++ [⟨"html/other", f.name, none⟩] },
         r.add_file_moved (entryExtension f) "html/other" f.name)) := by
  have hbc : detect_html_category_by_content f = Except.ok HtmlCategory.Unknown := by
    unfold detect_html_category_by_content
    rw [hcontent]
    rfl
  have hdet : detect_html_category f = Except.ok HtmlCategory.Unknown := by
    have cA : (decide (lowerStr (fileStem f.name) = "index") ||
        decide (lowerStr (fileStem f.name) = "home") ||
        decide (lowerStr (fileStem f.name) = "main")) = false := by
      simp [h1, h2, h3]
    have cB : (strContains (lowerStr (fileStem f.name)) "template" ||
        strContains (lowerStr (fileStem f.name)) "layout") = false := by
      rw [h4, h5]
      rfl
    have cC : (strContains (lowerStr (fileStem f.name)) "component" ||
        strStartsWith (lowerStr (fileStem f.name)) "comp_") = false := by
      rw [h6, h7]
      rfl
    unfold detect_html_category
    dsimp only
    rw [cA, cB, cC]
    simp only [Bool.false_eq_true, if_false]
    exact hbc
  refine ⟨hdet, ?_⟩
  intro env fs r hmk hcp hext
  have hTF : targetFolderOf f = "html/other" := by
    unfold targetFolderOf detectCategory
    rw [hdet]
    rcases hext with hx | hx <;> rw [hx] <;> rfl
  rw [sort_single_file_eq, hTF, hmk, hcp, hcontent]
  simp only [Bool.false_eq_true, if_false]

/-- Witness for C6: `foo.html` with unreadable content sorts to
`html/other` without failing. -/
theorem unreadable_content_defaults_unknown_witness :
    detect_html_category ⟨"foo.html", true, none, false, false⟩ =
      Except.ok HtmlCategory.Unknown ∧
    sort_single_file Env.ok ⟨"foo.html", true, none, false, false⟩ ⟨[], []⟩
      SortingReport.new = Except.ok
      ({ FS.mk [] [] with target :=
          (FS.mk [] []).target ++ [⟨"html/other", "foo.html", none⟩] },
       SortingReport.new.add_file_moved
         (entryExtension ⟨"foo.html", true, none, false, false⟩) "html/other" "foo.html") := by
  have h := unreadable_content_defaults_unknown ⟨"foo.html", true, none, false, false⟩
    (by decide) (by decide) (by decide) (by decide) (by decide) (by decide) (by decide) rfl
  exact ⟨h.1, h.2 Env.ok ⟨[], []⟩ SortingReport.new rfl rfl (Or.inl (by decide))⟩

/-- Witness for C10: at a concrete entry whose copy fails, the only
error surfaced is the copy error. -/
theorem detect_never_errors_witness :
    (∃ folder, SortError.copy "x.html" = SortError.mkdir folder) ∨
      SortError.copy "x.html" =
        SortError.copy (Entry.name ⟨"x.html", true, some "t", false, true⟩) :=
  (detect_never_errors ⟨"x.html", true, some "t", false, true⟩).2.2 Env.ok ⟨[], []⟩
    SortingReport.new (SortError.copy "x.html") (by decide)
